import Mathlib

/-!
Verification of the ReadingRoom repository's Waterfall Queue Engine
specification against a shallow embedding of the system.

The repository ships only the web front-end under source control; the
queue engine itself (Queue Store, State Machine, Promotion Engine,
Expiry Sweeper, Cycle Controller) is described by the design document
but its code is not present.  Those components are therefore modelled
from the specification text, as marked on each definition.  The two
library modules that are present as code (lib/email.ts and
lib/supabase.ts) are embedded directly from their TypeScript source.
-/

namespace ReadingRoom

/-- Modelled from the spec: the Registrant lifecycle statuses of the
State Machine (§4.2): waiting, invited, confirmed, declined, expired,
attended. -/
inductive Status where
  | waiting
  | invited
  | confirmed
  | declined
  | expired
  | attended
deriving DecidableEq, Repr

/-- Modelled from the spec: the priority class of a registrant (§3),
either normal or priority. -/
inductive PriorityClass where
  | normal
  | priority
deriving DecidableEq, Repr

/-- Modelled from the spec: a Registrant record (§3): identity
reference, queue position, status, invited-at timestamp, response
deadline, responded-at timestamp, priority class, manual-override
flag.  Timestamps are Nat milliseconds. -/
structure Registrant where
  id : Nat
  identity : Nat
  position : Nat
  status : Status
  invitedAt : Option Nat
  responseDeadline : Option Nat
  respondedAt : Option Nat
  priorityClass : PriorityClass
  manualOverride : Bool
deriving DecidableEq, Repr

/-- Modelled from the spec: the per-cycle context consulted by the
engine: current time, the cycle's cutoff timestamp, the automation
(kill-switch) flag, and whether the event-day check-in window is open. -/
structure Ctx where
  now : Nat
  cutoff : Nat
  automationEnabled : Bool
  eventDayWindow : Bool
deriving DecidableEq, Repr

/-- One hour in milliseconds. -/
def hourMs : Nat := 3600000

/-- 24 hours in milliseconds. -/
def dayMs : Nat := 24 * hourMs

/-- Modelled from the spec (§4.1): the response deadline is now + 24h
clamped to the cycle's cutoff timestamp. -/
def computeResponseDeadline (now cutoff : Nat) : Nat :=
  min (now + dayMs) cutoff

/-- Modelled from the spec (§4.1): the cycle is past cutoff once
now >= cutoff. -/
def isPastCutoff (now cutoff : Nat) : Bool :=
  cutoff ≤ now

/-- Rank of a priority class: priority class sorts before normal class
(§4.3), so priority has rank 0 and normal rank 1. -/
def classRank : PriorityClass → Nat
  | .priority => 0
  | .normal => 1

/-- Strict comparison by the ranking key (priorityClassRank,
queuePosition), lexicographic ascending (§4.3). -/
def rankLtB (a b : Registrant) : Bool :=
  classRank a.priorityClass < classRank b.priorityClass ||
    (classRank a.priorityClass = classRank b.priorityClass &&
      a.position < b.position)

/-- Minimum of a list of registrants under the ranking key; none on the
empty list. -/
def minByRank : List Registrant → Option Registrant
  | [] => none
  | r :: rs =>
    match minByRank rs with
    | none => some r
    | some b => if rankLtB r b then some r else some b

/-- Modelled from the spec (§4.3): nextWaiting returns the ranked-least
registrant with status waiting, under the key (priorityClassRank,
queuePosition) ascending. -/
def nextWaiting (regs : List Registrant) : Option Registrant :=
  minByRank (regs.filter fun r => r.status = Status.waiting)

/-- Modelled from the spec (§7): the error taxonomy of the core. -/
inductive QueueError where
  | duplicateRegistration
  | invalidTransition
  | registrationClosed
  | pastCutoff
  | alreadyRolledOut
  | transientContention
deriving DecidableEq, Repr

/-- Current maximum queue position in a cycle's registrant list, 0 when
the cycle has no registrants. -/
def maxPosition (regs : List Registrant) : Nat :=
  (regs.map fun r => r.position).foldl max 0

/-- A fresh registrant record as created at registration time (§3):
status waiting, no timestamps, no manual override. -/
def mkRegistrant (ident pos : Nat) (pc : PriorityClass) : Registrant :=
  { id := ident, identity := ident, position := pos,
    status := Status.waiting, invitedAt := none, responseDeadline := none,
    respondedAt := none, priorityClass := pc, manualOverride := false }

/-- Modelled from the spec (§4.3): enroll assigns position
1 + current max for the cycle and fails with DuplicateRegistration if
the identity already has a Registrant for this cycle. -/
def enroll (ident : Nat) (pc : PriorityClass) (regs : List Registrant) :
    Except QueueError (Registrant × List Registrant) :=
  if regs.any fun r => r.identity = ident then
    .error .duplicateRegistration
  else
    let r := mkRegistrant ident (maxPosition regs + 1) pc
    .ok (r, regs ++ [r])

/-- Running a sequence of enrollment requests against a cycle, each
enroll an atomic unit (failed enrolls leave the store unchanged). -/
def enrollAll (xs : List (Nat × PriorityClass)) : List Registrant :=
  xs.foldl
    (fun regs x =>
      match enroll x.1 x.2 regs with
      | .ok res => res.2
      | .error _ => regs)
    []

/-- The invited version of a registrant: status invited, invited-at set
to now, response deadline computed by the window policy (§4.1, §4.4). -/
def inviteReg (c : Ctx) (r : Registrant) : Registrant :=
  { r with status := Status.invited, invitedAt := some c.now,
           responseDeadline := some (computeResponseDeadline c.now c.cutoff) }

/-- Mark the registrant with the given id invited, leaving everyone
else untouched. -/
def markInvited (c : Ctx) (i : Nat) (regs : List Registrant) : List Registrant :=
  regs.map fun r => if r.id = i then inviteReg c r else r

/-- Invite a registrant exactly when its id lies in the given claimed
set (the cumulative effect of a series of promotions). -/
def inviteIf (c : Ctx) (S : List Nat) (r : Registrant) : Registrant :=
  if r.id ∈ S then inviteReg c r else r

/-- The registrants still waiting once the ids in S have been claimed. -/
def remWaiting (S : List Nat) (regs : List Registrant) : List Registrant :=
  regs.filter fun r =>
    decide (r.status = Status.waiting) && !(decide (r.id ∈ S))

/-- Modelled from the spec (§4.4): promoteOne promotes exactly one
waiting registrant — the least by ranking key — to invited, as one
atomic select-and-transition unit, or returns nothing (and leaves the
store untouched) if no one is waiting or automation is disabled or the
cycle is past cutoff. -/
def promoteOne (c : Ctx) (regs : List Registrant) :
    Option Registrant × List Registrant :=
  if c.automationEnabled = false || isPastCutoff c.now c.cutoff then
    (none, regs)
  else
    match nextWaiting regs with
    | none => (none, regs)
    | some w => (some (inviteReg c w), markInvited c w.id regs)

/-- A serialized sequence of n promoteOne calls (the spec's concurrency
model, §5: select-and-transition is a single atomic unit per cycle, so
any set of concurrent calls executes as some serialization).  Returns
the promoted registrants in call order and the final store. -/
def promoteN (c : Ctx) : Nat → List Registrant → List Registrant × List Registrant
  | 0, regs => ([], regs)
  | n + 1, regs =>
    match promoteOne c regs with
    | (none, regs') =>
      let res := promoteN c n regs'
      (res.1, res.2)
    | (some p, regs') =>
      let res := promoteN c n regs'
      (p :: res.1, res.2)

/-- Modelled from the spec (§4.2): the transition triggers of the
State Machine: promotion, user accepts, user declines, voluntary
release ("hero cancellation"), deadline elapsed, check-in. -/
inductive Event where
  | promote
  | accept
  | decline
  | release
  | expire
  | checkIn
deriving DecidableEq, Repr

/-- The status an event drives a registrant into when its guard holds. -/
def eventTarget : Event → Status
  | .promote => Status.invited
  | .accept => Status.confirmed
  | .decline => Status.declined
  | .release => Status.declined
  | .expire => Status.expired
  | .checkIn => Status.attended

/-- The guard of the "now < response-deadline" rows: false when no
deadline is set. -/
def beforeDeadline (now : Nat) (r : Registrant) : Bool :=
  match r.responseDeadline with
  | none => false
  | some d => now < d

/-- The guard of the "now >= response-deadline" row: false when no
deadline is set. -/
def deadlineElapsed (now : Nat) (r : Registrant) : Bool :=
  match r.responseDeadline with
  | none => false
  | some d => d ≤ now

/-- Modelled from the spec (§4.2): the guarded transition table, one
row per (from-status, trigger) pair of the table, with each row's
guard condition. -/
def guarded (c : Ctx) (r : Registrant) (e : Event) : Bool :=
  match r.status, e with
  | Status.waiting, Event.promote =>
    c.automationEnabled && !isPastCutoff c.now c.cutoff
  | Status.invited, Event.accept => beforeDeadline c.now r
  | Status.invited, Event.decline => beforeDeadline c.now r
  | Status.invited, Event.release => c.now < c.cutoff
  | Status.confirmed, Event.release => c.now < c.cutoff
  | Status.invited, Event.expire => deadlineElapsed c.now r
  | Status.confirmed, Event.checkIn => c.eventDayWindow
  | _, _ => false

/-- Modelled from the spec (§4.2): the pure transition function.  A
repeated identical request (the registrant already has the event's
target status) returns the current state unchanged; a guarded row
whose guard holds produces the transitioned registrant; anything else
fails with InvalidTransition. -/
def transitionReg (c : Ctx) (r : Registrant) (e : Event) :
    Except QueueError Registrant :=
  if r.status = eventTarget e then
    .ok r
  else if guarded c r e then
    match e with
    | Event.promote => .ok (inviteReg c r)
    | Event.accept =>
      .ok { r with status := Status.confirmed, respondedAt := some c.now }
    | Event.decline =>
      .ok { r with status := Status.declined, respondedAt := some c.now }
    | Event.release =>
      .ok { r with status := Status.declined, respondedAt := some c.now }
    | Event.expire => .ok { r with status := Status.expired }
    | Event.checkIn => .ok { r with status := Status.attended }
  else
    .error .invalidTransition

/-- Applying a transition to a registrant record: a failed transition
leaves the registrant in its prior state. -/
def applyReg (c : Ctx) (r : Registrant) (e : Event) : Registrant :=
  match transitionReg c r e with
  | .ok r₂ => r₂
  | .error _ => r

/-- The expired version of a registrant. -/
def expireReg (r : Registrant) : Registrant :=
  { r with status := Status.expired }

/-- Modelled from the spec (§4.5): one expiry step of the sweeper for
the registrant with the given id — succeeds exactly when that
registrant still has status invited with an elapsed deadline, and is
skipped (not an error) otherwise. -/
def expireOne (now : Nat) (i : Nat) (regs : List Registrant) :
    Bool × List Registrant :=
  match regs.find? fun r => r.id = i with
  | some r =>
    if r.status = Status.invited && deadlineElapsed now r then
      (true, regs.map fun s => if s.id = i then expireReg s else s)
    else
      (false, regs)
  | none => (false, regs)

/-- One sweep iteration: drive the expiry of the registrant with the
given id and, exactly when that expiry succeeds, invoke the Promotion
Engine once, counting the invocation. -/
def sweepStep (c : Ctx) (acc : Nat × List Registrant) (i : Nat) :
    Nat × List Registrant :=
  match expireOne c.now i acc.2 with
  | (true, regs₂) => (acc.1 + 1, (promoteOne c regs₂).2)
  | (false, _) => acc

/-- Modelled from the spec (§4.5): the per-cycle sweep.  Inert when
automation is disabled or the cycle is past cutoff; otherwise it scans
the registrants with status invited and response-deadline <= now and,
for each, drives the expiry transition and — on each successful expiry
— invokes the Promotion Engine exactly once on the cycle.  Returns the
number of Promotion Engine invocations and the final store. -/
def sweepCycle (c : Ctx) (regs : List Registrant) : Nat × List Registrant :=
  if c.automationEnabled = false || isPastCutoff c.now c.cutoff then
    (0, regs)
  else
    (((regs.filter fun r =>
        r.status = Status.invited && deadlineElapsed c.now r).map
      fun r => r.id).foldl (sweepStep c) (0, regs))

/-- Modelled from the spec (§4.6): the mutable per-cycle controller
state: the registrant store, the seat capacity and the rolled-out
idempotency flag. -/
structure CycleState where
  regs : List Registrant
  capacity : Nat
  rolledOut : Bool
deriving DecidableEq, Repr

/-- Count of already-invited priority-class registrants (subtracted
from the rollout budget, §4.6). -/
def invitedPriorityCount (regs : List Registrant) : Nat :=
  (regs.filter fun r =>
    r.status = Status.invited && r.priorityClass = PriorityClass.priority).length

/-- Modelled from the spec (§4.4): promoteBatch promotes up to n
registrants in ranking order, as n serialized promoteOne calls. -/
def promoteBatch (c : Ctx) (n : Nat) (regs : List Registrant) :
    List Registrant × List Registrant :=
  promoteN c n regs

/-- Modelled from the spec (§4.6): rollout performs promoteBatch up to
capacity minus already-invited priority-class registrants, and is
idempotent: a second invocation on an already-rolled-out cycle is
rejected with AlreadyRolledOut. -/
def rollout (c : Ctx) (cs : CycleState) :
    Except QueueError (List Registrant × CycleState) :=
  if cs.rolledOut then
    .error .alreadyRolledOut
  else
    let res := promoteBatch c (cs.capacity - invitedPriorityCount cs.regs) cs.regs
    .ok (res.1, { regs := res.2, capacity := cs.capacity, rolledOut := true })

/-- The automated activities that can hit a cycle while the kill
switch is off: a Promotion Engine call, or an expiry of a given
registrant (already-invited registrants still expire at their own
deadline, §4.1). -/
inductive AutoStep where
  | promoteCall
  | expiry (i : Nat)
deriving DecidableEq, Repr

/-- Run a sequence of automated steps against a cycle's store. -/
def runSteps (c : Ctx) (steps : List AutoStep) (regs : List Registrant) :
    List Registrant :=
  match steps with
  | [] => regs
  | AutoStep.promoteCall :: rest => runSteps c rest (promoteOne c regs).2
  | AutoStep.expiry i :: rest => runSteps c rest (expireOne c.now i regs).2

/-- The status of the registrant with a given id, none when absent. -/
def getStatus (regs : List Registrant) (i : Nat) : Option Status :=
  (regs.find? fun r => r.id = i).map fun r => r.status

/-- A process environment: a partial map from variable names to string
values.  An unset variable is none; JavaScript string truthiness makes
both an unset and an empty value falsy. -/
def Env : Type := String → Option String

/-- JavaScript falsiness of an environment lookup: true exactly when
the variable is unset or empty. -/
def envFalsy (v : Option String) : Bool :=
  match v with
  | none => true
  | some s => s.isEmpty

/-- Embedded from src/lib/email.ts: getUnsendApiKey reads
UNSEND_API_KEY and throws when it is falsy (unset or empty), otherwise
returns the key. -/
def getUnsendApiKey (env : Env) : Except String String :=
  match env "UNSEND_API_KEY" with
  | none => .error "UNSEND_API_KEY is not set."
  | some key =>
    if key.isEmpty then .error "UNSEND_API_KEY is not set."
    else .ok key

/-- Embedded from src/lib/email.ts: getUnsendHeaders builds the
Authorization header value from the key (propagating the throw). -/
def getUnsendHeaders (env : Env) : Except String String :=
  match getUnsendApiKey env with
  | .ok key => .ok ("Bearer " ++ key)
  | .error e => .error e

/-- Embedded from src/lib/email.ts: getDefaultFrom returns
UNSEND_FROM_EMAIL when set (the ?? operator keeps even an empty
string), and the literal fallback address otherwise. -/
def getDefaultFrom (env : Env) : String :=
  match env "UNSEND_FROM_EMAIL" with
  | some s => s
  | none => "noreply@readingroom.dev"

/-- Embedded from src/lib/supabase.ts: the constructed client record,
holding the URL and anon key the client was configured with. -/
structure SupabaseClient where
  url : String
  anonKey : String
deriving DecidableEq, Repr

/-- Embedded from src/lib/supabase.ts lines 7-13: the module-level
environment check throws on a missing (falsy) SUPABASE_URL or
SUPABASE_ANON_KEY, but only when NODE_ENV is not "production". -/
def supabaseModuleCheck (env : Env) : Except String Unit :=
  if envFalsy (env "SUPABASE_URL") || envFalsy (env "SUPABASE_ANON_KEY") then
    if (env "NODE_ENV" = some "production" : Bool) = false then
      .error "Missing SUPABASE_URL or SUPABASE_ANON_KEY environment variables."
    else
      .ok ()
  else
    .ok ()

/-- Embedded from src/lib/supabase.ts: createSupabaseBrowserClient
throws when either variable is falsy, otherwise constructs the client
from the two values. -/
def createSupabaseBrowserClient (env : Env) : Except String SupabaseClient :=
  match env "SUPABASE_URL", env "SUPABASE_ANON_KEY" with
  | some url, some key =>
    if url.isEmpty || key.isEmpty then
      .error "Supabase env vars are not configured."
    else
      .ok { url := url, anonKey := key }
  | _, _ => .error "Supabase env vars are not configured."

/-- Embedded from src/lib/supabase.ts: createSupabaseServerClient has
the same guard and constructs the client from the same two values (the
cookie plumbing is outside the model). -/
def createSupabaseServerClient (env : Env) : Except String SupabaseClient :=
  match env "SUPABASE_URL", env "SUPABASE_ANON_KEY" with
  | some url, some key =>
    if url.isEmpty || key.isEmpty then
      .error "Supabase env vars are not configured."
    else
      .ok { url := url, anonKey := key }
  | _, _ => .error "Supabase env vars are not configured."

/-! ### Sample values used by witness instantiations -/

/-- A context with automation enabled well before cutoff. -/
def wCtx : Ctx :=
  { now := 100, cutoff := 1000000000, automationEnabled := true,
    eventDayWindow := false }

/-- A normal-class waiting registrant at position 1. -/
def regA : Registrant := mkRegistrant 1 1 PriorityClass.normal

/-- A priority-class waiting registrant at position 2. -/
def regB : Registrant := mkRegistrant 2 2 PriorityClass.priority

/-- A context whose automation kill switch is off. -/
def ctxOff : Ctx :=
  { now := 100, cutoff := 1000000000, automationEnabled := false,
    eventDayWindow := false }

/-- An invited normal-class registrant whose response deadline (50) has
elapsed at wCtx.now = 100. -/
def regC : Registrant :=
  { id := 3, identity := 3, position := 3, status := Status.invited,
    invitedAt := some 10, responseDeadline := some 50, respondedAt := none,
    priorityClass := PriorityClass.normal, manualOverride := false }

/-- An environment holding only the Unsend API key. -/
def envSample : Env := fun n =>
  if n = "UNSEND_API_KEY" then some "k" else none

/-- An environment with no variables at all. -/
def envEmpty : Env := fun _ => none

/-! ### C3: response-deadline clamping -/

/-- C3: computeResponseDeadline equals now + 24h when that does not
exceed the cycle's cutoff, equals the cutoff exactly when it does, and
in particular an invitation issued at cutoff - 2h gets a response
deadline of exactly cutoff. -/
theorem C3_responseDeadline_clamped (now cutoff : Nat) :
    (now + dayMs ≤ cutoff → computeResponseDeadline now cutoff = now + dayMs) ∧
    (cutoff < now + dayMs → computeResponseDeadline now cutoff = cutoff) ∧
    (2 * hourMs ≤ cutoff →
      computeResponseDeadline (cutoff - 2 * hourMs) cutoff = cutoff) := by
  unfold computeResponseDeadline dayMs hourMs
  omega

/-- Witness for C3 at concrete times. -/
theorem C3_responseDeadline_clamped_witness :
    computeResponseDeadline 100 (100 + dayMs + 7) = 100 + dayMs ∧
    computeResponseDeadline (dayMs - 2 * hourMs) dayMs = dayMs :=
  ⟨(C3_responseDeadline_clamped 100 (100 + dayMs + 7)).1 (by decide),
   (C3_responseDeadline_clamped (dayMs - 2 * hourMs) dayMs).2.2 (by decide)⟩

/-! ### C9: Unsend email environment helpers -/

/-- C9: getUnsendApiKey errors exactly when UNSEND_API_KEY is unset or
empty and returns the key otherwise; getUnsendHeaders produces a
Bearer header under the same condition; getDefaultFrom returns
UNSEND_FROM_EMAIL when set and the literal fallback otherwise. -/
theorem C9_email_env (env : Env) :
    ((∃ e, getUnsendApiKey env = Except.error e) ↔
      (env "UNSEND_API_KEY" = none ∨ env "UNSEND_API_KEY" = some "")) ∧
    (∀ k, env "UNSEND_API_KEY" = some k → k ≠ "" →
      getUnsendApiKey env = Except.ok k ∧
      getUnsendHeaders env = Except.ok ("Bearer " ++ k)) ∧
    ((∃ e, getUnsendHeaders env = Except.error e) ↔
      (env "UNSEND_API_KEY" = none ∨ env "UNSEND_API_KEY" = some "")) ∧
    (∀ s, env "UNSEND_FROM_EMAIL" = some s → getDefaultFrom env = s) ∧
    (env "UNSEND_FROM_EMAIL" = none →
      getDefaultFrom env = "noreply@readingroom.dev") := by
  refine ⟨?_, ?_, ?_, ?_, ?_⟩
  · cases hk : env "UNSEND_API_KEY" with
    | none => simp [getUnsendApiKey, hk]
    | some k =>
      by_cases hke : k = ""
      · subst hke; simp [getUnsendApiKey, hk, String.isEmpty_iff]
      · simp [getUnsendApiKey, hk, String.isEmpty_iff, hke]
  · intro k hk hke
    have hne : k.isEmpty = false := by
      rw [Bool.eq_false_iff]
      intro hab
      exact hke ((String.isEmpty_iff k).mp hab)
    constructor
    · simp [getUnsendApiKey, hk, hne]
    · simp [getUnsendHeaders, getUnsendApiKey, hk, hne]
  · cases hk : env "UNSEND_API_KEY" with
    | none => simp [getUnsendHeaders, getUnsendApiKey, hk]
    | some k =>
      by_cases hke : k = ""
      · subst hke; simp [getUnsendHeaders, getUnsendApiKey, hk, String.isEmpty_iff]
      · simp [getUnsendHeaders, getUnsendApiKey, hk, String.isEmpty_iff, hke]
  · intro s hs; simp [getDefaultFrom, hs]
  · intro hs; simp [getDefaultFrom, hs]

/-- Witness for C9 on a concrete environment holding only the key. -/
theorem C9_email_env_witness :
    getUnsendApiKey envSample = Except.ok "k" ∧
    getUnsendHeaders envSample = Except.ok ("Bearer " ++ "k") ∧
    getDefaultFrom envSample = "noreply@readingroom.dev" :=
  ⟨((C9_email_env envSample).2.1 "k" (by decide) (by decide)).1,
   ((C9_email_env envSample).2.1 "k" (by decide) (by decide)).2,
   (C9_email_env envSample).2.2.2.2 (by decide)⟩

/-! ### C10: Supabase client environment guards -/

/-- C10: both client constructors error whenever SUPABASE_URL or
SUPABASE_ANON_KEY is unset (no client is constructed), and the
module-level check errors on missing variables exactly when NODE_ENV
is not "production". -/
theorem C10_supabase_env (env : Env) :
    ((env "SUPABASE_URL" = none ∨ env "SUPABASE_ANON_KEY" = none) →
      (∃ e, createSupabaseBrowserClient env = Except.error e) ∧
      (∃ e, createSupabaseServerClient env = Except.error e)) ∧
    ((∃ e, supabaseModuleCheck env = Except.error e) ↔
      ((envFalsy (env "SUPABASE_URL") ||
          envFalsy (env "SUPABASE_ANON_KEY")) = true ∧
        env "NODE_ENV" ≠ some "production")) := by
  constructor
  · intro h
    constructor
    · rcases h with h | h <;>
        [cases hk : env "SUPABASE_ANON_KEY" <;>
          simp [createSupabaseBrowserClient, h, hk];
         cases hu : env "SUPABASE_URL" <;>
          simp [createSupabaseBrowserClient, h, hu]]
    · rcases h with h | h <;>
        [cases hk : env "SUPABASE_ANON_KEY" <;>
          simp [createSupabaseServerClient, h, hk];
         cases hu : env "SUPABASE_URL" <;>
          simp [createSupabaseServerClient, h, hu]]
  · by_cases hm :
      (envFalsy (env "SUPABASE_URL") || envFalsy (env "SUPABASE_ANON_KEY")) = true
    · by_cases hp : env "NODE_ENV" = some "production"
      · simp [supabaseModuleCheck, hm, hp]
      · simp [supabaseModuleCheck, hm, hp]
    · simp [supabaseModuleCheck, hm]

/-- Witness for C10 on the empty environment (nothing configured, not
production). -/
theorem C10_supabase_env_witness :
    ((∃ e, createSupabaseBrowserClient envEmpty = Except.error e) ∧
      (∃ e, createSupabaseServerClient envEmpty = Except.error e)) ∧
    (∃ e, supabaseModuleCheck envEmpty = Except.error e) :=
  ⟨(C10_supabase_env envEmpty).1 (Or.inl (by decide)),
   (C10_supabase_env envEmpty).2.mpr ⟨by decide, by decide⟩⟩

/-! ### Ranking-order lemmas -/

/-- Unfolding of the strict ranking comparison. -/
theorem rankLtB_iff (a b : Registrant) :
    rankLtB a b = true ↔
      (classRank a.priorityClass < classRank b.priorityClass ∨
        (classRank a.priorityClass = classRank b.priorityClass ∧
          a.position < b.position)) := by
  simp [rankLtB]

/-- The ranking comparison is irreflexive. -/
theorem rankLtB_irrefl (a : Registrant) : rankLtB a a = false := by
  rw [Bool.eq_false_iff]
  intro h
  rcases (rankLtB_iff a a).mp h with h | h <;> omega

/-- The ranking comparison is transitive. -/
theorem rankLtB_trans {a b c : Registrant} (hab : rankLtB a b = true)
    (hbc : rankLtB b c = true) : rankLtB a c = true := by
  rw [rankLtB_iff] at hab hbc ⊢
  omega

/-- Two registrants incomparable under the strict ranking share both
key components. -/
theorem rankLtB_antisymm {a b : Registrant} (hab : rankLtB a b = false)
    (hba : rankLtB b a = false) :
    classRank a.priorityClass = classRank b.priorityClass ∧
      a.position = b.position := by
  have h1 : ¬(classRank a.priorityClass < classRank b.priorityClass ∨
      (classRank a.priorityClass = classRank b.priorityClass ∧
        a.position < b.position)) := by
    rw [← rankLtB_iff, hab]
    simp
  have h2 : ¬(classRank b.priorityClass < classRank a.priorityClass ∨
      (classRank b.priorityClass = classRank a.priorityClass ∧
        b.position < a.position)) := by
    rw [← rankLtB_iff, hba]
    simp
  omega

/-- Inviting a registrant does not change its ranking key (left). -/
theorem rankLtB_inviteReg_left (c : Ctx) (a b : Registrant) :
    rankLtB (inviteReg c a) b = rankLtB a b := rfl

/-- Inviting a registrant does not change its ranking key (right). -/
theorem rankLtB_inviteReg_right (c : Ctx) (a b : Registrant) :
    rankLtB a (inviteReg c b) = rankLtB a b := rfl

/-- minByRank returns none exactly on the empty list. -/
theorem minByRank_eq_none {l : List Registrant} :
    minByRank l = none ↔ l = [] := by
  cases l with
  | nil => simp [minByRank]
  | cons r rs =>
    simp only [minByRank]
    cases minByRank rs with
    | none => simp
    | some b =>
      by_cases h : rankLtB r b = true <;> simp [h]

/-- minByRank returns an element of the list. -/
theorem minByRank_mem {l : List Registrant} {r : Registrant}
    (h : minByRank l = some r) : r ∈ l := by
  induction l with
  | nil => simp [minByRank] at h
  | cons x xs ih =>
    simp only [minByRank] at h
    cases hxs : minByRank xs with
    | none =>
      rw [hxs] at h
      simp at h
      simp [h]
    | some b =>
      rw [hxs] at h
      by_cases hlt : rankLtB x b = true
      · simp [hlt] at h
        simp [h]
      · simp [hlt] at h
        subst h
        exact List.mem_cons_of_mem x (ih hxs)

/-- minByRank returns a least element: nothing in the list is strictly
below it. -/
theorem minByRank_min {l : List Registrant} :
    ∀ {r : Registrant}, minByRank l = some r →
      ∀ s ∈ l, rankLtB s r = false := by
  induction l with
  | nil => intro r h; simp [minByRank] at h
  | cons x xs ih =>
    intro r h
    simp only [minByRank] at h
    cases hxs : minByRank xs with
    | none =>
      rw [hxs] at h
      simp at h
      subst h
      intro s hs
      rcases List.mem_cons.mp hs with h1 | h1
      · subst h1; exact rankLtB_irrefl s
      · rw [minByRank_eq_none.mp hxs] at h1
        simp at h1
    | some b =>
      rw [hxs] at h
      by_cases hlt : rankLtB x b = true
      · simp [hlt] at h
        subst h
        intro s hs
        rcases List.mem_cons.mp hs with h1 | h1
        · subst h1; exact rankLtB_irrefl s
        · have hsb := ih hxs s h1
          rw [Bool.eq_false_iff]
          intro hsx
          have hcon : rankLtB s b = true := rankLtB_trans hsx hlt
          rw [hcon] at hsb
          exact Bool.true_eq_false.mp hsb
      · simp [hlt] at h
        subst h
        intro s hs
        rcases List.mem_cons.mp hs with h1 | h1
        · subst h1
          exact Bool.eq_false_iff.mpr hlt
        · exact ih hxs s h1

/-! ### C2: nextWaiting returns the ranked-least waiting registrant -/

/-- C2: nextWaiting returns a waiting registrant of the cycle that is
minimal under the ranking key (priorityClassRank, queuePosition), is
priority-class whenever any priority-class registrant is waiting, and
consequently promoteOne promotes a normal-class registrant only when
no priority-class registrant is waiting. -/
theorem C2_nextWaiting_ranked (regs : List Registrant) :
    (∀ r, nextWaiting regs = some r →
      r ∈ regs ∧ r.status = Status.waiting ∧
      (∀ s ∈ regs, s.status = Status.waiting → rankLtB s r = false) ∧
      (∀ s ∈ regs, s.status = Status.waiting →
        s.priorityClass = PriorityClass.priority →
        r.priorityClass = PriorityClass.priority)) ∧
    (∀ c p regs₂, promoteOne c regs = (some p, regs₂) →
      p.priorityClass = PriorityClass.normal →
      ∀ s ∈ regs, s.status = Status.waiting →
        s.priorityClass = PriorityClass.normal) := by
  have main : ∀ r, nextWaiting regs = some r →
      r ∈ regs ∧ r.status = Status.waiting ∧
      (∀ s ∈ regs, s.status = Status.waiting → rankLtB s r = false) ∧
      (∀ s ∈ regs, s.status = Status.waiting →
        s.priorityClass = PriorityClass.priority →
        r.priorityClass = PriorityClass.priority) := by
    intro r h
    unfold nextWaiting at h
    have hmem := minByRank_mem h
    have hmin := minByRank_min h
    have hr : r ∈ regs ∧ r.status = Status.waiting := by
      have := List.mem_filter.mp hmem
      simpa using this
    refine ⟨hr.1, hr.2, ?_, ?_⟩
    · intro s hs hsw
      exact hmin s (List.mem_filter.mpr (by simpa using ⟨hs, hsw⟩))
    · intro s hs hsw hsp
      have hsr := hmin s (List.mem_filter.mpr (by simpa using ⟨hs, hsw⟩))
      cases hrp : r.priorityClass with
      | priority => rfl
      | normal =>
        exfalso
        have : rankLtB s r = true := by
          rw [rankLtB_iff, hsp, hrp]
          simp [classRank]
        rw [this] at hsr
        exact Bool.true_eq_false.mp hsr
  refine ⟨main, ?_⟩
  intro c p regs₂ hp hpc s hs hsw
  unfold promoteOne at hp
  by_cases hg : (c.automationEnabled = false || isPastCutoff c.now c.cutoff) = true
  · rw [if_pos hg] at hp
    simp at hp
  · rw [if_neg hg] at hp
    cases hw : nextWaiting regs with
    | none => rw [hw] at hp; simp at hp
    | some w =>
      rw [hw] at hp
      simp at hp
      have hwp := (main w hw).2.2.2
      cases hsc : s.priorityClass with
      | normal => rfl
      | priority =>
        exfalso
        have : w.priorityClass = PriorityClass.priority := hwp s hs hsw hsc
        have hpw : p.priorityClass = w.priorityClass := by
          rw [← hp.1]
          rfl
        rw [hpc, this] at hpw
        exact PriorityClass.noConfusion hpw

/-- Witness for C2: with a normal-class registrant at position 1 and a
priority-class registrant at position 2 both waiting, nextWaiting
selects the priority-class one. -/
theorem C2_nextWaiting_ranked_witness :
    regB ∈ [regA, regB] ∧ regB.status = Status.waiting ∧
      (∀ s ∈ [regA, regB], s.status = Status.waiting →
        rankLtB s regB = false) ∧
      (∀ s ∈ [regA, regB], s.status = Status.waiting →
        s.priorityClass = PriorityClass.priority →
        regB.priorityClass = PriorityClass.priority) :=
  (C2_nextWaiting_ranked [regA, regB]).1 regB (by decide)

/-! ### C5: state-machine guards, no side effects, idempotent retries -/

/-- C5: every transition failure is an InvalidTransition error, any
(status, event) pair outside the guarded set fails that way, a failed
transition leaves the registrant in its prior state, and a repeated
identical request returns the current state unchanged instead of
erroring. -/
theorem C5_transition_guarded (c : Ctx) (r : Registrant) (e : Event) :
    (∀ err, transitionReg c r e = Except.error err →
      err = QueueError.invalidTransition) ∧
    (r.status ≠ eventTarget e → guarded c r e = false →
      transitionReg c r e = Except.error QueueError.invalidTransition) ∧
    ((∃ err, transitionReg c r e = Except.error err) → applyReg c r e = r) ∧
    (r.status = eventTarget e → transitionReg c r e = Except.ok r) := by
  by_cases ht : r.status = eventTarget e
  · refine ⟨?_, ?_, ?_, ?_⟩ <;> simp [transitionReg, applyReg, ht]
  · by_cases hg : guarded c r e = true
    · refine ⟨?_, ?_, ?_, ?_⟩
      · intro err herr
        cases e <;> simp [transitionReg, ht, hg] at herr
      · intro _ hgf
        rw [hgf] at hg
        exact absurd hg Bool.false_ne_true
      · intro herr
        rcases herr with ⟨err, herr⟩
        cases e <;> simp [transitionReg, ht, hg] at herr
      · intro h1
        exact absurd h1 ht
    · have hgf : guarded c r e = false := Bool.eq_false_iff.mpr hg
      refine ⟨?_, ?_, ?_, ?_⟩
      · intro err herr
        simp [transitionReg, ht, hgf] at herr
        exact herr.symm
      · intro _ _
        simp [transitionReg, ht, hgf]
      · intro _
        simp [applyReg, transitionReg, ht, hgf]
      · intro h1
        exact absurd h1 ht

/-- Witness for C5: accepting from status waiting is outside the
guarded set, fails with InvalidTransition and leaves the registrant
unchanged. -/
theorem C5_transition_guarded_witness :
    transitionReg wCtx regA Event.accept =
      Except.error QueueError.invalidTransition ∧
    applyReg wCtx regA Event.accept = regA := by
  have h := C5_transition_guarded wCtx regA Event.accept
  have h1 := h.2.1 (by decide) (by decide)
  exact ⟨h1, h.2.2.1 ⟨_, h1⟩⟩

/-! ### C4: enroll assigns dense positions and rejects duplicates -/

/-- Folding max over the positions 1..n yields n. -/
theorem foldlMax_range' (n : Nat) : (List.range' 1 n).foldl max 0 = n := by
  induction n with
  | zero => rfl
  | succ m ih =>
    rw [List.range'_concat, List.foldl_append, ih]
    simp only [List.foldl_cons, List.foldl_nil]
    omega

/-- When a cycle's positions are exactly 1..n, the maximum position is
n. -/
theorem maxPosition_of_range {regs : List Registrant}
    (h : (regs.map fun r => r.position) = List.range' 1 regs.length) :
    maxPosition regs = regs.length := by
  unfold maxPosition
  rw [h, foldlMax_range']

/-- Any sequence of enrollment requests keeps the positions of the
store equal to the dense range 1..length. -/
theorem enrollFold_positions (xs : List (Nat × PriorityClass)) :
    ∀ (regs : List Registrant),
      ((regs.map fun r => r.position) = List.range' 1 regs.length) →
      (((xs.foldl
          (fun regs x =>
            match enroll x.1 x.2 regs with
            | .ok res => res.2
            | .error _ => regs)
          regs).map fun r => r.position) =
        List.range' 1
          (xs.foldl
            (fun regs x =>
              match enroll x.1 x.2 regs with
              | .ok res => res.2
              | .error _ => regs)
            regs).length) := by
  induction xs with
  | nil => intro regs h; simpa using h
  | cons x xs ih =>
    intro regs h
    rw [List.foldl_cons]
    by_cases hdup : (regs.any fun r => r.identity = x.1) = true
    · have : enroll x.1 x.2 regs = Except.error QueueError.duplicateRegistration := by
        unfold enroll
        rw [if_pos hdup]
      rw [this]
      exact ih regs h
    · have hd : (regs.any fun r => r.identity = x.1) = false :=
        Bool.eq_false_iff.mpr hdup
      have : enroll x.1 x.2 regs =
          Except.ok (mkRegistrant x.1 (maxPosition regs + 1) x.2,
            regs ++ [mkRegistrant x.1 (maxPosition regs + 1) x.2]) := by
        unfold enroll
        rw [if_neg (by rw [hd]; exact Bool.false_ne_true)]
      rw [this]
      refine ih _ ?_
      rw [List.map_append, h, List.length_append]
      have hmax : maxPosition regs = regs.length := maxPosition_of_range h
      have hsingle :
          (([mkRegistrant x.1 (maxPosition regs + 1) x.2]).map
            fun r => r.position) = [1 + 1 * regs.length] := by
        simp [mkRegistrant, hmax]
        omega
      rw [hsingle]
      have hlen : (regs.length + [mkRegistrant x.1 (maxPosition regs + 1) x.2].length)
          = regs.length + 1 := by simp
      rw [hlen, List.range'_concat]

/-- C4: enrollment positions form the dense range 1..count for every
sequence of enroll calls; enroll fails with DuplicateRegistration
exactly on an already-enrolled identity, and otherwise atomically
appends a waiting registrant at position 1 + current max. -/
theorem C4_enroll_dense (xs : List (Nat × PriorityClass)) (ident : Nat)
    (pc : PriorityClass) (regs : List Registrant) :
    (((enrollAll xs).map fun r => r.position) =
      List.range' 1 (enrollAll xs).length) ∧
    ((regs.any fun r => r.identity = ident) = true →
      enroll ident pc regs = Except.error QueueError.duplicateRegistration) ∧
    ((regs.any fun r => r.identity = ident) = false →
      enroll ident pc regs =
        Except.ok (mkRegistrant ident (maxPosition regs + 1) pc,
          regs ++ [mkRegistrant ident (maxPosition regs + 1) pc])) := by
  refine ⟨?_, ?_, ?_⟩
  · unfold enrollAll
    exact enrollFold_positions xs [] (by simp)
  · intro hdup
    unfold enroll
    rw [if_pos hdup]
  · intro hd
    unfold enroll
    rw [if_neg (by rw [hd]; exact Bool.false_ne_true)]

/-- Witness for C4: a three-request run (one a duplicate) yields dense
positions, the duplicate is rejected, and a fresh identity lands at
1 + max. -/
theorem C4_enroll_dense_witness :
    (((enrollAll [(1, PriorityClass.normal), (1, PriorityClass.normal),
        (2, PriorityClass.priority)]).map fun r => r.position) =
      List.range' 1 (enrollAll [(1, PriorityClass.normal),
        (1, PriorityClass.normal), (2, PriorityClass.priority)]).length) ∧
    enroll 1 PriorityClass.normal [regA] =
      Except.error QueueError.duplicateRegistration ∧
    enroll 2 PriorityClass.priority [regA] =
      Except.ok (mkRegistrant 2 (maxPosition [regA] + 1) PriorityClass.priority,
        [regA] ++ [mkRegistrant 2 (maxPosition [regA] + 1) PriorityClass.priority]) :=
  ⟨(C4_enroll_dense [(1, PriorityClass.normal), (1, PriorityClass.normal),
      (2, PriorityClass.priority)] 1 PriorityClass.normal [regA]).1,
   (C4_enroll_dense [] 1 PriorityClass.normal [regA]).2.1 (by decide),
   (C4_enroll_dense [] 2 PriorityClass.priority [regA]).2.2 (by decide)⟩

/-! ### C7: rollout idempotency -/

/-- A batch of n serialized promotions returns at most n registrants. -/
theorem promoteN_fst_length_le (c : Ctx) :
    ∀ (n : Nat) (regs : List Registrant), (promoteN c n regs).1.length ≤ n := by
  intro n
  induction n with
  | zero => intro regs; simp [promoteN]
  | succ m ih =>
    intro regs
    simp only [promoteN]
    cases hp : promoteOne c regs with
    | mk o regs₂ =>
      cases o with
      | none => simpa using Nat.le_succ_of_le (ih regs₂)
      | some p => simpa using Nat.succ_le_succ (ih regs₂)

/-- C7: a first rollout on a not-yet-rolled-out cycle performs
promoteBatch bounded by capacity minus already-invited priority-class
registrants and marks the cycle rolled out; a rollout on an
already-rolled-out cycle — in particular any second call — is rejected
with AlreadyRolledOut and promotes no one. -/
theorem C7_rollout_idempotent (c : Ctx) (cs : CycleState) :
    (cs.rolledOut = true →
      rollout c cs = Except.error QueueError.alreadyRolledOut) ∧
    (cs.rolledOut = false →
      rollout c cs =
        Except.ok ((promoteBatch c (cs.capacity - invitedPriorityCount cs.regs)
            cs.regs).1,
          { regs := (promoteBatch c
              (cs.capacity - invitedPriorityCount cs.regs) cs.regs).2,
            capacity := cs.capacity, rolledOut := true }) ∧
      (promoteBatch c (cs.capacity - invitedPriorityCount cs.regs)
          cs.regs).1.length ≤ cs.capacity - invitedPriorityCount cs.regs) ∧
    (∀ P₂ cs₂, rollout c cs = Except.ok (P₂, cs₂) →
      rollout c cs₂ = Except.error QueueError.alreadyRolledOut) := by
  refine ⟨?_, ?_, ?_⟩
  · intro h
    unfold rollout
    rw [if_pos h]
  · intro h
    constructor
    · unfold rollout
      rw [if_neg (by rw [h]; exact Bool.false_ne_true)]
    · exact promoteN_fst_length_le c _ cs.regs
  · intro P₂ cs₂ hok
    unfold rollout at hok
    by_cases h : cs.rolledOut = true
    · rw [if_pos h] at hok
      exact absurd hok (by simp)
    · rw [if_neg h] at hok
      simp only [Except.ok.injEq, Prod.mk.injEq] at hok
      have hcs : cs₂.rolledOut = true := by
        rw [← hok.2]
      unfold rollout
      rw [if_pos hcs]

/-- Witness for C7 on a concrete one-seat cycle: the first rollout
succeeds and the second call on its result is rejected. -/
theorem C7_rollout_idempotent_witness :
    (rollout wCtx { regs := [regA, regB], capacity := 1, rolledOut := false } =
      Except.ok ((promoteBatch wCtx
          (1 - invitedPriorityCount [regA, regB]) [regA, regB]).1,
        { regs := (promoteBatch wCtx
            (1 - invitedPriorityCount [regA, regB]) [regA, regB]).2,
          capacity := 1, rolledOut := true }) ∧
      (promoteBatch wCtx (1 - invitedPriorityCount [regA, regB])
          [regA, regB]).1.length ≤ 1 - invitedPriorityCount [regA, regB]) ∧
    rollout wCtx { regs := [regA], capacity := 1, rolledOut := true } =
      Except.error QueueError.alreadyRolledOut :=
  ⟨(C7_rollout_idempotent wCtx
      { regs := [regA, regB], capacity := 1, rolledOut := false }).2.1 rfl,
   (C7_rollout_idempotent wCtx
      { regs := [regA], capacity := 1, rolledOut := true }).1 rfl⟩

/-! ### C8: the kill switch halts promotion -/

/-- find? by id commutes with an id-preserving map. -/
theorem find?_map_id_pres (f : Registrant → Registrant)
    (hf : ∀ r, (f r).id = r.id) (regs : List Registrant) (i : Nat) :
    ((regs.map f).find? fun r => r.id = i) =
      (regs.find? fun r => r.id = i).map f := by
  induction regs with
  | nil => rfl
  | cons x xs ih =>
    simp only [List.map_cons, List.find?_cons]
    have hfx : (decide ((f x).id = i)) = (decide (x.id = i)) := by rw [hf]
    rw [hfx]
    cases hd : decide (x.id = i) with
    | true => simp
    | false => simpa using ih

/-- promoteOne is a no-op when automation is disabled. -/
theorem promoteOne_auto_off (c : Ctx) (regs : List Registrant)
    (h : c.automationEnabled = false) : promoteOne c regs = (none, regs) := by
  unfold promoteOne
  rw [if_pos (by simp [h])]

/-- promoteOne is a no-op past the cycle's cutoff. -/
theorem promoteOne_past_cutoff (c : Ctx) (regs : List Registrant)
    (h : isPastCutoff c.now c.cutoff = true) :
    promoteOne c regs = (none, regs) := by
  unfold promoteOne
  rw [if_pos (by simp [h])]

/-- promoteOne is a no-op when no registrant is waiting. -/
theorem promoteOne_no_waiting (c : Ctx) (regs : List Registrant)
    (h : nextWaiting regs = none) : promoteOne c regs = (none, regs) := by
  unfold promoteOne
  by_cases hg :
      (decide (c.automationEnabled = false) || isPastCutoff c.now c.cutoff) = true
  · rw [if_pos hg]
  · rw [if_neg hg, h]

/-- Unfolding expireOne when the target id is found. -/
theorem expireOne_eq_found (now j : Nat) (regs : List Registrant)
    (r : Registrant) (hj : (regs.find? fun s => s.id = j) = some r) :
    expireOne now j regs =
      if (r.status = Status.invited && deadlineElapsed now r) = true then
        (true, regs.map fun s => if s.id = j then expireReg s else s)
      else (false, regs) := by
  unfold expireOne
  rw [hj]

/-- Unfolding expireOne when the target id is absent. -/
theorem expireOne_eq_absent (now j : Nat) (regs : List Registrant)
    (hj : (regs.find? fun s => s.id = j) = none) :
    expireOne now j regs = (false, regs) := by
  unfold expireOne
  rw [hj]

/-- An expiry step never touches a registrant that is waiting. -/
theorem expireOne_preserves_waiting (now j : Nat) (regs : List Registrant)
    (i : Nat) (h : getStatus regs i = some Status.waiting) :
    getStatus (expireOne now j regs).2 i = some Status.waiting := by
  cases hj : regs.find? fun r => r.id = j with
  | none => rw [expireOne_eq_absent now j regs hj]; exact h
  | some r =>
    rw [expireOne_eq_found now j regs r hj]
    by_cases hr : (r.status = Status.invited && deadlineElapsed now r) = true
    · rw [if_pos hr]
      unfold getStatus at h ⊢
      cases hi : regs.find? fun r => r.id = i with
      | none => rw [hi] at h; simp at h
      | some q =>
        rw [hi] at h
        simp at h
        have hq : q.id = i := by
          have := List.find?_some hi
          simpa using this
        have hqj : q.id ≠ j := by
          intro hij
          have hij2 : i = j := by rw [← hq, hij]
          rw [hij2, hj] at hi
          have hrq : r = q := by simpa using hi
          rw [hrq, h] at hr
          simp at hr
        rw [find?_map_id_pres _ (fun s => by by_cases hsj : s.id = j <;>
          simp [hsj, expireReg]) regs i]
        rw [hi]
        simp [hqj, h]
    · rw [if_neg hr]
      exact h

/-- With the kill switch off, no sequence of automated steps moves any
waiting registrant out of waiting. -/
theorem runSteps_no_promotion (c : Ctx) (hoff : c.automationEnabled = false) :
    ∀ (steps : List AutoStep) (regs : List Registrant) (i : Nat),
      getStatus regs i = some Status.waiting →
      getStatus (runSteps c steps regs) i = some Status.waiting := by
  intro steps
  induction steps with
  | nil => intro regs i h; exact h
  | cons s rest ih =>
    intro regs i h
    cases s with
    | promoteCall =>
      show getStatus (runSteps c rest (promoteOne c regs).2) i =
        some Status.waiting
      rw [promoteOne_auto_off c regs hoff]
      exact ih regs i h
    | expiry j =>
      exact ih _ i (expireOne_preserves_waiting c.now j regs i h)

/-- C8: promoteOne returns nothing and leaves the store (hence every
already-issued deadline) untouched when automation is disabled, past
cutoff, or with nobody waiting; and with automation disabled no
registrant moves from waiting to invited under any sequence of
promotion calls and continuing expiries. -/
theorem C8_kill_switch (c : Ctx) (regs : List Registrant) :
    (c.automationEnabled = false → promoteOne c regs = (none, regs)) ∧
    (isPastCutoff c.now c.cutoff = true → promoteOne c regs = (none, regs)) ∧
    (nextWaiting regs = none → promoteOne c regs = (none, regs)) ∧
    (c.automationEnabled = false → ∀ (steps : List AutoStep) (i : Nat),
      getStatus regs i = some Status.waiting →
      getStatus (runSteps c steps regs) i = some Status.waiting) :=
  ⟨promoteOne_auto_off c regs,
   promoteOne_past_cutoff c regs,
   promoteOne_no_waiting c regs,
   fun hoff steps i h => runSteps_no_promotion c hoff steps regs i h⟩

/-- Witness for C8: with the kill switch off, a promotion call is a
no-op and a mixed run of promotions and expiries leaves the waiting
registrant at id 1 waiting. -/
theorem C8_kill_switch_witness :
    promoteOne ctxOff [regA, regB] = (none, [regA, regB]) ∧
    getStatus
        (runSteps ctxOff
          [AutoStep.promoteCall, AutoStep.expiry 2, AutoStep.promoteCall]
          [regA, regB]) 1 =
      some Status.waiting :=
  ⟨(C8_kill_switch ctxOff [regA, regB]).1 rfl,
   (C8_kill_switch ctxOff [regA, regB]).2.2.2 rfl
     [AutoStep.promoteCall, AutoStep.expiry 2, AutoStep.promoteCall] 1
     (by decide)⟩

/-! ### C6: the expiry sweep -/

/-- In a store with duplicate-free ids, looking a member up by its own
id finds exactly that member. -/
theorem find?_of_mem_nodup {regs : List Registrant}
    (hid : (regs.map fun r => r.id).Nodup) {r : Registrant} (hr : r ∈ regs) :
    (regs.find? fun s => s.id = r.id) = some r := by
  induction regs with
  | nil => simp at hr
  | cons x xs ih =>
    rw [List.map_cons] at hid
    have hx := (List.nodup_cons.mp hid).1
    have hxs := (List.nodup_cons.mp hid).2
    rcases List.mem_cons.mp hr with h1 | h1
    · subst h1
      rw [List.find?_cons]
      simp
    · have hxr : x.id ≠ r.id := by
        intro hcon
        exact hx (hcon ▸ List.mem_map.mpr ⟨r, h1, rfl⟩)
      rw [List.find?_cons]
      have : (decide (x.id = r.id)) = false := by simp [hxr]
      rw [this]
      exact ih hxs h1

/-- Mapping an id-preserving function preserves the id column. -/
theorem map_ids_pres (f : Registrant → Registrant)
    (hf : ∀ r, (f r).id = r.id) (regs : List Registrant) :
    ((regs.map f).map fun r => r.id) = regs.map fun r => r.id := by
  rw [List.map_map]
  exact List.map_congr_left fun r _ => hf r

/-- markInvited preserves the id column. -/
theorem markInvited_ids (c : Ctx) (i : Nat) (regs : List Registrant) :
    ((markInvited c i regs).map fun r => r.id) = regs.map fun r => r.id := by
  unfold markInvited
  exact map_ids_pres _ (fun r => by by_cases h : r.id = i <;> simp [h, inviteReg])
    regs

/-- promoteOne preserves the id column. -/
theorem promoteOne_ids (c : Ctx) (regs : List Registrant) :
    ((promoteOne c regs).2.map fun r => r.id) = regs.map fun r => r.id := by
  unfold promoteOne
  by_cases hg :
      (decide (c.automationEnabled = false) || isPastCutoff c.now c.cutoff) = true
  · rw [if_pos hg]
  · rw [if_neg hg]
    cases hw : nextWaiting regs with
    | none => rfl
    | some w => exact markInvited_ids c w.id regs

/-- A successfully selected nextWaiting registrant is a waiting member
of the store. -/
theorem nextWaiting_mem {regs : List Registrant} {w : Registrant}
    (h : nextWaiting regs = some w) : w ∈ regs ∧ w.status = Status.waiting := by
  unfold nextWaiting at h
  have hm := minByRank_mem h
  have h2 := List.mem_filter.mp hm
  exact ⟨h2.1, by simpa using h2.2⟩

/-- promoteOne leaves the record of any non-waiting registrant exactly
in place (as found by id). -/
theorem find?_promoteOne (c : Ctx) (regs : List Registrant)
    (hid : (regs.map fun r => r.id).Nodup) (i : Nat) (q : Registrant)
    (hfind : (regs.find? fun s => s.id = i) = some q)
    (hqs : q.status ≠ Status.waiting) :
    ((promoteOne c regs).2.find? fun s => s.id = i) = some q := by
  unfold promoteOne
  by_cases hg :
      (decide (c.automationEnabled = false) || isPastCutoff c.now c.cutoff) = true
  · rw [if_pos hg]
    exact hfind
  · rw [if_neg hg]
    cases hw : nextWaiting regs with
    | none => exact hfind
    | some w =>
      show ((markInvited c w.id regs).find? fun s => s.id = i) = some q
      unfold markInvited
      rw [find?_map_id_pres _
        (fun r => by by_cases h : r.id = w.id <;> simp [h, inviteReg]) regs i,
        hfind]
      have hqi : q.id = i := by simpa using List.find?_some hfind
      have hqw : q.id ≠ w.id := by
        intro hqw
        obtain ⟨hwm, hws⟩ := nextWaiting_mem hw
        have hq : q = w :=
          List.inj_on_of_nodup_map hid (List.mem_of_find?_eq_some hfind) hwm hqw
        rw [hq, hws] at hqs
        exact hqs rfl
      simp [hqw]

/-- getStatus version of find?_promoteOne: promoteOne preserves every
non-waiting status. -/
theorem getStatus_promoteOne (c : Ctx) (regs : List Registrant)
    (hid : (regs.map fun r => r.id).Nodup) (i : Nat) (st : Status)
    (hst : st ≠ Status.waiting) (h : getStatus regs i = some st) :
    getStatus (promoteOne c regs).2 i = some st := by
  unfold getStatus at h ⊢
  cases hq : regs.find? fun s => s.id = i with
  | none => rw [hq] at h; simp at h
  | some q =>
    rw [hq] at h
    simp at h
    rw [find?_promoteOne c regs hid i q hq (by rw [h]; exact hst)]
    simpa using h

/-- Marking one registrant expired preserves every already-expired
status. -/
theorem getStatus_expireMap (s : List Registrant) (j i : Nat)
    (h : getStatus s i = some Status.expired) :
    getStatus (s.map fun t => if t.id = j then expireReg t else t) i =
      some Status.expired := by
  unfold getStatus at h ⊢
  rw [find?_map_id_pres _ (fun r => by by_cases hr : r.id = j <;>
    simp [hr, expireReg]) s i]
  cases hq : s.find? fun r => r.id = i with
  | none => rw [hq] at h; simp at h
  | some q =>
    rw [hq] at h
    simp at h
    by_cases hqj : q.id = j <;> simp [hqj, expireReg, h]

/-- An expiry map does not move the record of a registrant with a
different id. -/
theorem find?_expireMap_other (s : List Registrant) (j i : Nat)
    (q : Registrant) (hfind : (s.find? fun t => t.id = i) = some q)
    (hij : i ≠ j) :
    ((s.map fun t => if t.id = j then expireReg t else t).find?
      fun t => t.id = i) = some q := by
  rw [find?_map_id_pres _ (fun r => by by_cases hr : r.id = j <;>
    simp [hr, expireReg]) s i, hfind]
  have hqi : q.id = i := by simpa using List.find?_some hfind
  simp [hqi, hij]

/-- The sweep fold: processing a duplicate-free list of target ids
whose registrants are all invited with elapsed deadlines increments the
promotion counter once per target, preserves already-expired statuses,
and leaves every target expired. -/
theorem sweepFold_spec (c : Ctx) :
    ∀ (T : List Nat) (s : List Registrant) (k : Nat),
      ((s.map fun r => r.id).Nodup) →
      T.Nodup →
      (∀ i ∈ T, ∃ r, (s.find? fun t => t.id = i) = some r ∧
        r.status = Status.invited ∧ deadlineElapsed c.now r = true) →
      (T.foldl (sweepStep c) (k, s)).1 = k + T.length ∧
      (∀ i, getStatus s i = some Status.expired →
        getStatus (T.foldl (sweepStep c) (k, s)).2 i = some Status.expired) ∧
      (∀ i ∈ T, getStatus (T.foldl (sweepStep c) (k, s)).2 i =
        some Status.expired) := by
  intro T
  induction T with
  | nil =>
    intro s k _ _ _
    exact ⟨by simp, fun i h => h, by simp⟩
  | cons i₀ T ih =>
    intro s k hid hnd hinv
    obtain ⟨r, hfind, hrs, hrd⟩ := hinv i₀ (List.mem_cons_self i₀ T)
    have hexp : expireOne c.now i₀ s =
        (true, s.map fun t => if t.id = i₀ then expireReg t else t) := by
      rw [expireOne_eq_found c.now i₀ s r hfind,
        if_pos (by simp [hrs, hrd])]
    have hstep : sweepStep c (k, s) i₀ =
        (k + 1,
          (promoteOne c
            (s.map fun t => if t.id = i₀ then expireReg t else t)).2) := by
      unfold sweepStep
      rw [hexp]
    rw [List.foldl_cons, hstep]
    have hfexp : ∀ t : Registrant,
        ((if t.id = i₀ then expireReg t else t).id) = t.id := by
      intro t
      by_cases h : t.id = i₀ <;> simp [h, expireReg]
    have hid₁ :
        (((s.map fun t => if t.id = i₀ then expireReg t else t).map
          fun r => r.id)) = s.map fun r => r.id :=
      map_ids_pres _ hfexp s
    have hid₃ :
        (((promoteOne c
            (s.map fun t => if t.id = i₀ then expireReg t else t)).2.map
          fun r => r.id)) = s.map fun r => r.id := by
      rw [promoteOne_ids, hid₁]
    have hnd' := (List.nodup_cons.mp hnd)
    have hinv₃ : ∀ i ∈ T,
        ∃ q, (((promoteOne c
            (s.map fun t => if t.id = i₀ then expireReg t else t)).2.find?
          fun t => t.id = i) = some q) ∧
          q.status = Status.invited ∧ deadlineElapsed c.now q = true := by
      intro i hi
      obtain ⟨q, hq, hqs, hqd⟩ := hinv i (List.mem_cons_of_mem i₀ hi)
      have hii₀ : i ≠ i₀ := fun h => hnd'.1 (h ▸ hi)
      refine ⟨q, ?_, hqs, hqd⟩
      exact find?_promoteOne c _ (by rw [hid₁]; exact hid) i q
        (find?_expireMap_other s i₀ i q hq hii₀) (by rw [hqs]; simp)
    have hnew : getStatus (promoteOne c
        (s.map fun t => if t.id = i₀ then expireReg t else t)).2 i₀ =
        some Status.expired := by
      have hri : r.id = i₀ := by simpa using List.find?_some hfind
      have h₁ : getStatus
          (s.map fun t => if t.id = i₀ then expireReg t else t) i₀ =
          some Status.expired := by
        unfold getStatus
        rw [find?_map_id_pres _ hfexp s i₀, hfind]
        simp [hri, expireReg]
      exact getStatus_promoteOne c _ (by rw [hid₁]; exact hid) i₀
        Status.expired (by simp) h₁
    have hpres : ∀ i, getStatus s i = some Status.expired →
        getStatus (promoteOne c
          (s.map fun t => if t.id = i₀ then expireReg t else t)).2 i =
          some Status.expired := by
      intro i h
      exact getStatus_promoteOne c _ (by rw [hid₁]; exact hid) i
        Status.expired (by simp) (getStatus_expireMap s i₀ i h)
    obtain ⟨hlen, hkeep, hdone⟩ :=
      ih ((promoteOne c
        (s.map fun t => if t.id = i₀ then expireReg t else t)).2) (k + 1)
        (by rw [hid₃]; exact hid) hnd'.2 hinv₃
    refine ⟨?_, ?_, ?_⟩
    · rw [hlen]
      simp
      omega
    · intro i h
      exact hkeep i (hpres i h)
    · intro i hi
      rcases List.mem_cons.mp hi with h | h
      · subst h
        exact hkeep i hnew
      · exact hdone i h

/-- C6: on a non-past-cutoff cycle with automation enabled, the sweep
invokes the Promotion Engine exactly once per registrant that was
invited with an elapsed deadline, and every such registrant ends in
status expired. -/
theorem C6_sweep_expiry (c : Ctx) (regs : List Registrant)
    (hA : c.automationEnabled = true)
    (hC : isPastCutoff c.now c.cutoff = false)
    (hid : (regs.map fun r => r.id).Nodup) :
    (sweepCycle c regs).1 =
      (regs.filter fun r =>
        r.status = Status.invited && deadlineElapsed c.now r).length ∧
    ∀ r ∈ regs, r.status = Status.invited → deadlineElapsed c.now r = true →
      getStatus (sweepCycle c regs).2 r.id = some Status.expired := by
  have hgate :
      (decide (c.automationEnabled = false) || isPastCutoff c.now c.cutoff)
        = false := by
    simp [hA, hC]
  have hrw : sweepCycle c regs =
      (((regs.filter fun r =>
          r.status = Status.invited && deadlineElapsed c.now r).map
        fun r => r.id).foldl (sweepStep c) (0, regs)) := by
    unfold sweepCycle
    rw [if_neg (by rw [hgate]; exact Bool.false_ne_true)]
  have hTnd :
      (((regs.filter fun r =>
          r.status = Status.invited && deadlineElapsed c.now r).map
        fun r => r.id)).Nodup := by
    have hsub : List.Sublist
        ((regs.filter fun r =>
          r.status = Status.invited && deadlineElapsed c.now r).map
            fun r => r.id)
        (regs.map fun r => r.id) :=
      List.Sublist.map _ (List.filter_sublist regs)
    exact List.Nodup.sublist hsub hid
  have hTinv : ∀ i ∈ ((regs.filter fun r =>
      r.status = Status.invited && deadlineElapsed c.now r).map
        fun r => r.id),
      ∃ r, (regs.find? fun t => t.id = i) = some r ∧
        r.status = Status.invited ∧ deadlineElapsed c.now r = true := by
    intro i hi
    obtain ⟨r, hrmem, hri⟩ := List.mem_map.mp hi
    have hrf := List.mem_filter.mp hrmem
    have hprops : r.status = Status.invited ∧ deadlineElapsed c.now r = true := by
      have := hrf.2
      simp at this
      exact this
    refine ⟨r, ?_, hprops.1, hprops.2⟩
    rw [← hri]
    exact find?_of_mem_nodup hid hrf.1
  obtain ⟨hlen, _, hdone⟩ :=
    sweepFold_spec c
      ((regs.filter fun r =>
        r.status = Status.invited && deadlineElapsed c.now r).map
          fun r => r.id) regs 0 hid hTnd hTinv
  constructor
  · rw [hrw, hlen]
    simp
  · intro r hr hrs hrd
    rw [hrw]
    refine hdone r.id (List.mem_map.mpr ⟨r, ?_, rfl⟩)
    exact List.mem_filter.mpr ⟨hr, by simp [hrs, hrd]⟩

/-- Witness for C6: sweeping a store with one waiting registrant and
one invited registrant whose deadline has elapsed performs exactly one
promotion invocation and expires the elapsed registrant. -/
theorem C6_sweep_expiry_witness :
    (sweepCycle wCtx [regA, regC]).1 =
      ([regA, regC].filter fun r =>
        r.status = Status.invited && deadlineElapsed wCtx.now r).length ∧
    ∀ r ∈ [regA, regC], r.status = Status.invited →
      deadlineElapsed wCtx.now r = true →
      getStatus (sweepCycle wCtx [regA, regC]).2 r.id = some Status.expired :=
  C6_sweep_expiry wCtx [regA, regC] rfl (by decide) (by decide)

/-! ### C1: atomic serialized promotion -/

/-- Inviting twice equals inviting once. -/
theorem inviteReg_idem (c : Ctx) (r : Registrant) :
    inviteReg c (inviteReg c r) = inviteReg c r := rfl

/-- inviteIf preserves ids. -/
theorem inviteIf_id (c : Ctx) (S : List Nat) (r : Registrant) :
    (inviteIf c S r).id = r.id := by
  unfold inviteIf
  by_cases h : r.id ∈ S <;> simp [h, inviteReg]

/-- Marking one more id invited on an inviteIf-shaped store extends the
claimed set. -/
theorem markInvited_map_inviteIf (c : Ctx) (i : Nat) (S : List Nat)
    (regs : List Registrant) :
    markInvited c i (regs.map (inviteIf c S)) =
      regs.map (inviteIf c (i :: S)) := by
  unfold markInvited
  rw [List.map_map]
  refine List.map_congr_left fun r _ => ?_
  show (if (inviteIf c S r).id = i then inviteReg c (inviteIf c S r)
    else inviteIf c S r) = inviteIf c (i :: S) r
  by_cases hS : r.id ∈ S
  · have h1 : inviteIf c S r = inviteReg c r := by simp [inviteIf, hS]
    have h3 : inviteIf c (i :: S) r = inviteReg c r := by
      simp [inviteIf, List.mem_cons, hS]
    rw [h1, h3]
    by_cases hi : (inviteReg c r).id = i
    · rw [if_pos hi, inviteReg_idem]
    · rw [if_neg hi]
  · have h1 : inviteIf c S r = r := by simp [inviteIf, hS]
    rw [h1]
    by_cases hi : r.id = i
    · have h3 : inviteIf c (i :: S) r = inviteReg c r := by
        simp [inviteIf, List.mem_cons, hi]
      rw [if_pos hi, h3]
    · have h3 : inviteIf c (i :: S) r = r := by
        simp [inviteIf, List.mem_cons, hi, hS]
      rw [if_neg hi, h3]

/-- The waiting registrants of an inviteIf-shaped store are exactly the
unclaimed waiting registrants of the base store. -/
theorem filter_waiting_map_inviteIf (c : Ctx) (S : List Nat)
    (regs : List Registrant) :
    ((regs.map (inviteIf c S)).filter fun r => r.status = Status.waiting) =
      remWaiting S regs := by
  induction regs with
  | nil => rfl
  | cons r rs ih =>
    rw [List.map_cons]
    unfold remWaiting at ih ⊢
    rw [List.filter_cons, List.filter_cons]
    by_cases hS : r.id ∈ S
    · have h1 : inviteIf c S r = inviteReg c r := by simp [inviteIf, hS]
      rw [h1, if_neg (by simp [inviteReg]), if_neg (by simp [hS])]
      exact ih
    · have h1 : inviteIf c S r = r := by simp [inviteIf, hS]
      rw [h1]
      by_cases hw : r.status = Status.waiting
      · rw [if_pos (by simp [hw]), if_pos (by simp [hw, hS]), ih]
      · rw [if_neg (by simp [hw]), if_neg (by simp [hw])]
        exact ih

/-- Membership in remWaiting. -/
theorem mem_remWaiting {S : List Nat} {regs : List Registrant}
    {r : Registrant} :
    r ∈ remWaiting S regs ↔
      (r ∈ regs ∧ r.status = Status.waiting ∧ r.id ∉ S) := by
  unfold remWaiting
  rw [List.mem_filter]
  simp [and_assoc]

/-- Claiming one more id filters the remaining-waiting list. -/
theorem remWaiting_cons (i : Nat) (S : List Nat) (regs : List Registrant) :
    remWaiting (i :: S) regs =
      (remWaiting S regs).filter fun r => !(decide (r.id = i)) := by
  unfold remWaiting
  rw [List.filter_filter]
  refine List.filter_congr fun r _ => ?_
  by_cases h1 : r.id = i <;> by_cases h2 : r.id ∈ S <;>
    by_cases h3 : r.status = Status.waiting <;>
      simp [h1, h2, h3, List.mem_cons]

/-- Removing a member from a duplicate-free-by-id list of registrants
shrinks its length by exactly one. -/
theorem length_filter_ne_id (l : List Registrant)
    (hN : (l.map fun r => r.id).Nodup) (w : Registrant) (hw : w ∈ l) :
    (l.filter fun r => !(decide (r.id = w.id))).length + 1 = l.length := by
  induction l with
  | nil => simp at hw
  | cons x xs ih =>
    rw [List.map_cons] at hN
    have hx := (List.nodup_cons.mp hN).1
    have hxs := (List.nodup_cons.mp hN).2
    rw [List.filter_cons]
    by_cases hxw : x.id = w.id
    · have hpred : (!(decide (x.id = w.id))) = false := by simp [hxw]
      rw [hpred]
      have hall : xs.filter (fun r => !(decide (r.id = w.id))) = xs := by
        refine List.filter_eq_self.mpr fun a ha => ?_
        have : a.id ≠ x.id := by
          intro hcon
          exact hx (hcon ▸ List.mem_map.mpr ⟨a, ha, rfl⟩)
        simp [hxw ▸ this]
      simp [hall]
    · have hpred : (!(decide (x.id = w.id))) = true := by simp [hxw]
      rw [hpred, if_pos rfl]
      have hwxs : w ∈ xs := by
        rcases List.mem_cons.mp hw with h | h
        · exact absurd (h ▸ rfl) (h ▸ hxw)
        · exact h
      have := ih hxs hwxs
      simp only [List.length_cons]
      omega

/-- The remaining-waiting list inherits duplicate-free ids. -/
theorem remWaiting_ids_nodup (S : List Nat) (regs : List Registrant)
    (hid : (regs.map fun r => r.id).Nodup) :
    ((remWaiting S regs).map fun r => r.id).Nodup := by
  unfold remWaiting
  exact List.Nodup.sublist
    (List.Sublist.map _ (List.filter_sublist regs)) hid

/-- Unfolding promoteN on a successful promotion. -/
theorem promoteN_succ_some (c : Ctx) (n : Nat) (regs : List Registrant)
    (p : Registrant) (s₁ : List Registrant)
    (h : promoteOne c regs = (some p, s₁)) :
    promoteN c (n + 1) regs =
      (p :: (promoteN c n s₁).1, (promoteN c n s₁).2) := by
  simp only [promoteN]
  rw [h]

/-- Unfolding promoteN on a no-op promotion. -/
theorem promoteN_succ_none (c : Ctx) (n : Nat) (regs : List Registrant)
    (s₁ : List Registrant) (h : promoteOne c regs = (none, s₁)) :
    promoteN c (n + 1) regs = promoteN c n s₁ := by
  simp only [promoteN]
  rw [h]

/-- Unfolding promoteOne on an active cycle with someone waiting. -/
theorem promoteOne_eq_some (c : Ctx) (regs : List Registrant)
    (w : Registrant) (hA : c.automationEnabled = true)
    (hC : isPastCutoff c.now c.cutoff = false)
    (hw : nextWaiting regs = some w) :
    promoteOne c regs = (some (inviteReg c w), markInvited c w.id regs) := by
  unfold promoteOne
  rw [if_neg (by simp [hA, hC]), hw]

/-- The serialized-promotion invariant: starting from a store whose
claimed ids are exactly S, n promoteOne calls return the invited
versions of a duplicate-free selection P of the remaining waiting
registrants, of size min(remaining, n), every selected registrant
ranking strictly below every unselected remaining waiting registrant,
and the final store is the base store with the claimed set extended by
exactly the ids of P. -/
theorem promoteN_inv (c : Ctx) (regs : List Registrant)
    (hA : c.automationEnabled = true)
    (hC : isPastCutoff c.now c.cutoff = false)
    (hid : (regs.map fun r => r.id).Nodup)
    (hpos : (regs.map fun r => r.position).Nodup) :
    ∀ (n : Nat) (S : List Nat),
      ∃ P : List Registrant,
        (promoteN c n (regs.map (inviteIf c S))).1 = P.map (inviteReg c) ∧
        (∃ T : List Nat,
          (∀ i, i ∈ T ↔ (i ∈ P.map (fun r => r.id) ∨ i ∈ S)) ∧
          (promoteN c n (regs.map (inviteIf c S))).2 =
            regs.map (inviteIf c T)) ∧
        P.length = min (remWaiting S regs).length n ∧
        (∀ p ∈ P, p ∈ remWaiting S regs) ∧
        ((P.map fun r => r.id).Nodup) ∧
        (∀ p ∈ P, ∀ r ∈ remWaiting S regs,
          r.id ∉ (P.map fun q => q.id) → rankLtB p r = true) := by
  intro n
  induction n with
  | zero =>
    intro S
    exact ⟨[], by simp [promoteN],
      ⟨S, fun i => by simp, by simp [promoteN]⟩,
      by simp [promoteN], by simp, by simp, by simp⟩
  | succ n ih =>
    intro S
    have hnw : nextWaiting (regs.map (inviteIf c S)) =
        minByRank (remWaiting S regs) := by
      unfold nextWaiting
      rw [filter_waiting_map_inviteIf]
    cases hmin : minByRank (remWaiting S regs) with
    | none =>
      have hrem : remWaiting S regs = [] := minByRank_eq_none.mp hmin
      have hpromo : promoteOne c (regs.map (inviteIf c S)) =
          (none, regs.map (inviteIf c S)) :=
        promoteOne_no_waiting c _ (by rw [hnw, hmin])
      have heq := promoteN_succ_none c n _ _ hpromo
      obtain ⟨P', hret', hstate', hlen', _, _, _⟩ := ih S
      have hP0 : P' = [] := by
        rw [hrem] at hlen'
        simp at hlen'
        exact hlen'
      subst hP0
      refine ⟨[], ?_, ?_, ?_, by simp, by simp, by simp⟩
      · rw [heq]
        simpa using hret'
      · rw [heq]
        exact hstate'
      · rw [hrem]
        simp
    | some w =>
      obtain ⟨hwreg, hwwait, hwS⟩ := mem_remWaiting.mp (minByRank_mem hmin)
      have hwmin := minByRank_min hmin
      have hpromo : promoteOne c (regs.map (inviteIf c S)) =
          (some (inviteReg c w), regs.map (inviteIf c (w.id :: S))) := by
        rw [promoteOne_eq_some c _ w hA hC (by rw [hnw, hmin]),
          markInvited_map_inviteIf]
      have heq := promoteN_succ_some c n _ _ _ hpromo
      obtain ⟨P', hret', ⟨T', hT', hst'⟩, hlen', hmem', hnd', hdom'⟩ :=
        ih (w.id :: S)
      refine ⟨w :: P', ?_, ?_, ?_, ?_, ?_, ?_⟩
      · rw [heq]
        show inviteReg c w :: (promoteN c n _).1 = _
        rw [hret']
        rfl
      · refine ⟨T', fun i => ?_, ?_⟩
        · have h0 := hT' i
          simp only [List.map_cons, List.mem_cons] at h0 ⊢
          tauto
        · rw [heq]
          exact hst'
      · have hrel : (remWaiting (w.id :: S) regs).length + 1 =
            (remWaiting S regs).length := by
          rw [remWaiting_cons]
          exact length_filter_ne_id _ (remWaiting_ids_nodup S regs hid) w
            (minByRank_mem hmin)
        simp only [List.length_cons, hlen']
        omega
      · intro p hp
        rcases List.mem_cons.mp hp with h | h
        · subst h
          exact minByRank_mem hmin
        · have hmemp := hmem' p h
          rw [remWaiting_cons] at hmemp
          exact List.mem_of_mem_filter hmemp
      · simp only [List.map_cons]
        refine List.nodup_cons.mpr ⟨?_, hnd'⟩
        intro hcon
        obtain ⟨q, hq, hqid⟩ := List.mem_map.mp hcon
        have hqrem := mem_remWaiting.mp (hmem' q hq)
        exact hqrem.2.2 (hqid ▸ List.mem_cons_self w.id S)
      · intro p hp r hr hrid
        have hrid' : r.id ≠ w.id ∧ r.id ∉ P'.map fun q => q.id := by
          simp only [List.map_cons, List.mem_cons] at hrid
          exact ⟨fun h => hrid (Or.inl h), fun h => hrid (Or.inr h)⟩
        rcases List.mem_cons.mp hp with h | h
        · subst h
          by_cases hwr : rankLtB p r = true
          · exact hwr
          · exfalso
            have h1 : rankLtB p r = false := Bool.eq_false_iff.mpr hwr
            have h2 := rankLtB_antisymm h1 (hwmin r hr)
            have hrregs := (mem_remWaiting.mp hr).1
            have h3 : p = r :=
              List.inj_on_of_nodup_map hpos hwreg hrregs h2.2
            exact hrid'.1 (by rw [h3])
        · have hr' : r ∈ remWaiting (w.id :: S) regs := by
            have h3 := mem_remWaiting.mp hr
            refine mem_remWaiting.mpr ⟨h3.1, h3.2.1, ?_⟩
            intro hcon
            rcases List.mem_cons.mp hcon with h4 | h4
            · exact hrid'.1 h4
            · exact h3.2.2 h4
          exact hdom' p h r hr' hrid'.2

/-- C1: any serialization of n concurrent promoteOne calls on an
active cycle with K waiting registrants promotes exactly min(K, n)
registrants, each returned once with duplicate-free ids, each taken
from the waiting set, every promoted registrant ranking strictly below
every waiting registrant left unpromoted (so the promoted set is the
first min(K, n) by ranking key and nobody eligible is skipped), and
each promoted registrant is invited in the final store. -/
theorem C1_concurrent_promotion (c : Ctx) (regs : List Registrant) (n : Nat)
    (hA : c.automationEnabled = true)
    (hC : isPastCutoff c.now c.cutoff = false)
    (hid : (regs.map fun r => r.id).Nodup)
    (hpos : (regs.map fun r => r.position).Nodup) :
    ((promoteN c n regs).1.length =
      min (regs.filter fun r => r.status = Status.waiting).length n) ∧
    (((promoteN c n regs).1.map fun p => p.id).Nodup) ∧
    (∀ p ∈ (promoteN c n regs).1,
      ∃ r ∈ regs, r.status = Status.waiting ∧ p = inviteReg c r) ∧
    (∀ p ∈ (promoteN c n regs).1, ∀ r ∈ regs, r.status = Status.waiting →
      r.id ∉ ((promoteN c n regs).1.map fun q => q.id) →
      rankLtB p r = true) ∧
    (∀ p ∈ (promoteN c n regs).1,
      getStatus (promoteN c n regs).2 p.id = some Status.invited) := by
  have hmap0 : regs.map (inviteIf c []) = regs := by
    have h1 : ∀ r ∈ regs, inviteIf c [] r = r := fun r _ => by simp [inviteIf]
    rw [List.map_congr_left h1]
    exact List.map_id' regs
  obtain ⟨P, hret, ⟨T, hT, hst⟩, hlen, hmem, hnd, hdom⟩ :=
    promoteN_inv c regs hA hC hid hpos n []
  rw [hmap0] at hret hst
  have hrem0 : remWaiting [] regs =
      regs.filter fun r => r.status = Status.waiting := by
    unfold remWaiting
    exact List.filter_congr fun r _ => by simp
  refine ⟨?_, ?_, ?_, ?_, ?_⟩
  · rw [hret, List.length_map, hlen, hrem0]
  · rw [hret, map_ids_pres (inviteReg c) (fun r => rfl) P]
    exact hnd
  · intro p hp
    rw [hret] at hp
    obtain ⟨q, hq, hpq⟩ := List.mem_map.mp hp
    have h3 := mem_remWaiting.mp (hmem q hq)
    exact ⟨q, h3.1, h3.2.1, hpq.symm⟩
  · intro p hp r hr hrw hrid
    rw [hret] at hp hrid
    obtain ⟨q, hq, hpq⟩ := List.mem_map.mp hp
    rw [map_ids_pres (inviteReg c) (fun r => rfl) P] at hrid
    have hr' : r ∈ remWaiting [] regs :=
      mem_remWaiting.mpr ⟨hr, hrw, by simp⟩
    have hdq := hdom q hq r hr' hrid
    rw [← hpq, rankLtB_inviteReg_left]
    exact hdq
  · intro p hp
    rw [hret] at hp
    obtain ⟨q, hq, hpq⟩ := List.mem_map.mp hp
    have hq_regs := (mem_remWaiting.mp (hmem q hq)).1
    have hqT : q.id ∈ T :=
      (hT q.id).mpr (Or.inl (List.mem_map.mpr ⟨q, hq, rfl⟩))
    rw [hst]
    unfold getStatus
    have hpid : p.id = q.id := by rw [← hpq]; rfl
    rw [hpid, find?_map_id_pres (inviteIf c T) (inviteIf_id c T) regs q.id,
      find?_of_mem_nodup hid hq_regs]
    simp [inviteIf, hqT, inviteReg]

/-- Witness for C1 at a concrete store with two waiting registrants
(normal at position 1, priority at position 2) and one invited
registrant, under five serialized promotion calls. -/
theorem C1_concurrent_promotion_witness :
    ((promoteN wCtx 5 [regA, regB, regC]).1.length =
      min ([regA, regB, regC].filter fun r =>
        r.status = Status.waiting).length 5) ∧
    (((promoteN wCtx 5 [regA, regB, regC]).1.map fun p => p.id).Nodup) ∧
    (∀ p ∈ (promoteN wCtx 5 [regA, regB, regC]).1,
      ∃ r ∈ [regA, regB, regC], r.status = Status.waiting ∧
        p = inviteReg wCtx r) ∧
    (∀ p ∈ (promoteN wCtx 5 [regA, regB, regC]).1,
      ∀ r ∈ [regA, regB, regC], r.status = Status.waiting →
      r.id ∉ ((promoteN wCtx 5 [regA, regB, regC]).1.map fun q => q.id) →
      rankLtB p r = true) ∧
    (∀ p ∈ (promoteN wCtx 5 [regA, regB, regC]).1,
      getStatus (promoteN wCtx 5 [regA, regB, regC]).2 p.id =
        some Status.invited) :=
  C1_concurrent_promotion wCtx [regA, regB, regC] 5 rfl (by decide)
    (by decide) (by decide)

end ReadingRoom
